import Mathlib

/-!
Verification of the astana-hub tech-task scraper (`netlify/functions/techtasks-scheduler.js`).

The JavaScript source is shallowly embedded below.  Pure helpers become Lean
functions on `String` / `List Char` / `Int` (milliseconds since the Unix
epoch); the browser page is abstracted as a function from scroll round to the
list of rendered cards; the Telegram transport and the blob store are oracles
(`send : String → Bool`, `write : List String → Bool`); exceptions become
explicit result values.  Machine integers are modelled with `Nat`/`Int`
(JavaScript numbers stay far below 2^53 here, so no overflow modelling is
needed).
-/

/-! ### JavaScript string primitives used by the source -/

/-- The character class `\s` of JavaScript regular expressions and the set of
characters removed by `String.prototype.trim` (ECMA-262 WhiteSpace and
LineTerminator). -/
def isJsSpace (c : Char) : Bool :=
  c = ' ' || c = '\t' || c = '\n' || c = '\r' || c = '\x0b' || c = '\x0c' ||
  c = '\u00A0' || c = '\u1680' ||
  (0x2000 ≤ c.toNat && c.toNat ≤ 0x200A) ||
  c = '\u2028' || c = '\u2029' || c = '\u202F' || c = '\u205F' ||
  c = '\u3000' || c = '\uFEFF'

/-- Model of `dateStr.replace(/^\s*до\s*/i, "")` from `parseDdMmYyToUTC` (source line 40):
if the string starts with optional whitespace followed by the marker `до`
(case-insensitive), drop the whitespace, the marker and the whitespace that
follows it; otherwise the regular expression does not match and the string is
unchanged. -/
def stripDoMarker (cs : List Char) : List Char :=
  match cs.dropWhile isJsSpace with
  | c1 :: c2 :: rest =>
      if (c1 = 'д' || c1 = 'Д') && (c2 = 'о' || c2 = 'О') then
        rest.dropWhile isJsSpace
      else cs
  | _ => cs

/-- Model of `String.prototype.trim`: remove leading and trailing JavaScript
whitespace. -/
def jsTrim (cs : List Char) : List Char :=
  ((cs.dropWhile isJsSpace).reverse.dropWhile isJsSpace).reverse

/-- Model of `trim` on `String` values (used for `String(val).trim()`). -/
def jsTrimS (s : String) : String := ⟨jsTrim s.data⟩

/-- The character class `\d` of JavaScript regular expressions. -/
def isDigitCh (c : Char) : Bool := 48 ≤ c.toNat && c.toNat ≤ 57

/-- Numeric value of a digit character. -/
def digitVal (c : Char) : Nat := c.toNat - 48

/-! ### Model of `Date.UTC(y, m, d)` (ECMA-262 MakeDay)

`Date.UTC(y, mo - 1, d, 0, 0, 0)` returns `86400000 * MakeDay(y, mo-1, d)`
where `MakeDay` is the day number of the first day of month `mo` of year `y`
plus `d - 1`.  The parser only ever calls it with `1 ≤ mo ≤ 12` and years in
`[1970, 2069]`, so the model below is stated over `Nat` with the 1970 epoch.
A day count `d` larger than the month length is NOT rejected by `MakeDay`:
the result simply runs into the following month (e.g. February 31st becomes
March 3rd).  The model reproduces that behaviour faithfully. -/

/-- Gregorian leap-year test. -/
def isLeap (y : Nat) : Bool := (y % 4 == 0 && y % 100 != 0) || y % 400 == 0

/-- Number of leap years in `[1, y]`. -/
def leapsUpTo (y : Nat) : Nat := y / 4 - y / 100 + y / 400

/-- Days from 1970-01-01 to the first day of year `y` (for `y ≥ 1970`). -/
def daysToYear (y : Nat) : Nat :=
  365 * (y - 1970) + (leapsUpTo (y - 1) - leapsUpTo 1969)

/-- Days of year `y` that precede month `mo` (1-based month). -/
def daysBeforeMonth (y mo : Nat) : Nat :=
  (match mo with
   | 1 => 0 | 2 => 31 | 3 => 59 | 4 => 90 | 5 => 120 | 6 => 151
   | 7 => 181 | 8 => 212 | 9 => 243 | 10 => 273 | 11 => 304 | _ => 334) +
  (if 2 < mo && isLeap y then 1 else 0)

/-- Model of `MakeDay` for `y ≥ 1970`, `1 ≤ mo ≤ 12`, `d ≥ 1`: day number (since the
epoch) of day `d` of month `mo` of year `y`, where `d` beyond the month length
overflows into the following month exactly as in ECMA-262. -/
def epochDays (y mo d : Nat) : Nat :=
  daysToYear y + daysBeforeMonth y mo + (d - 1)

/-! ### `parseDdMmYyToUTC` (source lines 38-47) -/

/-- Core of the regular-expression match `^(\d{2})\.(\d{2})\.(\d{2})$` plus the
range check and `Date.UTC` call of `parseDdMmYyToUTC`, applied to the cleaned
character list.  Returns the UTC timestamp in milliseconds, or `none` for the
`return null` paths. -/
def parseCleanChars : List Char → Option Int
  | [a, b, p1, c, d, p2, e, f] =>
      if p1 = '.' && p2 = '.' && isDigitCh a && isDigitCh b && isDigitCh c &&
          isDigitCh d && isDigitCh e && isDigitCh f then
        let dd := 10 * digitVal a + digitVal b
        let mo := 10 * digitVal c + digitVal d
        let yy := 10 * digitVal e + digitVal f
        if dd < 1 || dd > 31 || mo < 1 || mo > 12 then none
        else
          let y := yy + (if yy < 70 then 2000 else 1900)
          some (86400000 * (epochDays y mo dd : Int))
      else none
  | _ => none

/-- Model of `parseDdMmYyToUTC(dateStr)`: strip an optional leading `до` marker, trim,
match `DD.MM.YY`, range-check day and month, window the two-digit year and
build the UTC midnight timestamp.  `none` models the `null` returns. -/
def parseDdMmYyToUTC (s : String) : Option Int :=
  if s = "" then none
  else parseCleanChars (jsTrim (stripDoMarker s.data))

/-! ### `todayStartUTC_Almaty` and `isExpiredByAlmaty` (source lines 49-61) -/

/-- Model of `todayStartUTC_Almaty()`: shift `now` by the fixed +5:00 offset, truncate
to that date's midnight, shift back.  The source truncates by reading
`getUTCFullYear/Month/Date` of the shifted instant and feeding them back into
`Date.UTC`; by ECMA-262 (`MakeDay` of `YearFromTime`, `MonthFromTime`,
`DateFromTime` is `Day(t)`) that composition is exactly flooring to the start
of the UTC day, i.e. `86400000 * ⌊t / 86400000⌋`. -/
def todayStartUTC_Almaty (now : Int) : Int :=
  86400000 * ((now + 18000000).fdiv 86400000) - 18000000

/-- Model of `isExpiredByAlmaty(deadlineUTC)`, with the implicit current time made
explicit. -/
def isExpiredByAlmaty (deadlineUTC now : Int) : Bool :=
  deadlineUTC < todayStartUTC_Almaty now

/-- Civil day number of the instant `now` in the fixed +5:00 zone (days since
the epoch of the Almaty calendar date containing `now`). -/
def almatyDayNumber (now : Int) : Int :=
  (now + 18000000).fdiv 86400000

/-! ### `escapeHtml` and `formatForTelegram` (source lines 34-36 and 63-73) -/

/-- One global `String.prototype.replace(/target/g, rep)` pass over the
characters. -/
def replaceCharBy (target : Char) (rep : List Char) : List Char → List Char
  | [] => []
  | c :: cs => (if c = target then rep else [c]) ++ replaceCharBy target rep cs

/-- Model of `escapeHtml(s)`: replace `&` by `&amp;`, then `<` by `&lt;`, then `>` by
`&gt;`, in that order. -/
def escapeHtml (s : String) : String :=
  ⟨replaceCharBy '>' "&gt;".data
    (replaceCharBy '<' "&lt;".data
      (replaceCharBy '&' "&amp;".data s.data))⟩

/-- Specification-side per-character escaping: each source character maps
directly to its final entity, with no double escaping.  Equality with
`escapeHtml` expresses that replacing `&` first is the correct order. -/
def escCharSpec (c : Char) : List Char :=
  if c = '&' then "&amp;".data
  else if c = '<' then "&lt;".data
  else if c = '>' then "&gt;".data
  else [c]

/-- One extracted listing record (`extractAllItems` produces these; absent
fields are the empty string, exactly as the extractor's `|| ""` fallbacks). -/
structure RawRecord where
  title : String
  description : String
  client : String
  deadline : String
  taskArea : String
  applications : String
  link : String
  deriving DecidableEq, Repr

/-- The label/value pairs in the order `formatForTelegram` visits them. -/
def fieldPairs (item : RawRecord) : List (String × String) :=
  [("Заголовок", item.title), ("Описание", item.description),
   ("Клиент", item.client), ("Дедлайн", item.deadline),
   ("Область задачи", item.taskArea), ("Подано заявок", item.applications)]

/-- The `add` closure of `formatForTelegram`:
`(label, val) => val && lines.push(...)`.  A JavaScript string is truthy iff
it is non-empty, so the line is pushed whenever `val ≠ ""`; the pushed value
is the escaped, trimmed text. -/
def addLine (lines : List String) (label val : String) : List String :=
  if val = "" then lines
  else lines ++ ["<b>" ++ escapeHtml label ++ ":</b> " ++ escapeHtml (jsTrimS val)]

/-- Model of `formatForTelegram(item)`: six `add` calls, then `lines.join("\n")`. -/
def formatForTelegram (item : RawRecord) : String :=
  String.intercalate "\n"
    (addLine (addLine (addLine (addLine (addLine (addLine []
      "Заголовок" item.title)
      "Описание" item.description)
      "Клиент" item.client)
      "Дедлайн" item.deadline)
      "Область задачи" item.taskArea)
      "Подано заявок" item.applications)

/-! ### `scrollUntilExpiredOrEnd` (source lines 126-184)

The live page is abstracted as `visible : Nat → List Cursor`: the cards
rendered in DOM (display) order at the start of scroll round `i`.  The
`page.$$eval` count and the `page.evaluate` extraction of one round read the
same snapshot; the scroll action and settle delay between rounds have no
modelled effect beyond moving to the next snapshot. -/

/-- The `{deadlineText, link}` pair the scroll phase reads from each card. -/
structure Cursor where
  deadlineText : String
  link : String
  deriving DecidableEq, Repr

/-- Model of `!d || isExpiredByAlmaty(d)` for `d = parseDdMmYyToUTC(c.deadlineText)`
(source lines 165-166). -/
def expiredOrInvalid (now : Int) (c : Cursor) : Bool :=
  match parseDdMmYyToUTC c.deadlineText with
  | none => true
  | some d => isExpiredByAlmaty d now

/-- The inner `for (idx …) { … if (expiredOrInvalid) { … break } }` loop
(source lines 163-173): index of the first expired-or-invalid cursor of the
slice, if any. -/
def firstStopIdx (now : Int) : List Cursor → Option Nat
  | [] => none
  | c :: rest =>
      if expiredOrInvalid now c then some 0
      else (firstStopIdx now rest).map (· + 1)

/-- One execution of the round loop of `scrollUntilExpiredOrEnd`, by fuel
(remaining rounds).  Arguments mirror the mutable locals `i`, `lastCount`,
`noGrowthRounds`, `lastExamined`; `stopAtCount` stays `null` unless the
newest-first fence is recorded.  The second component counts the rounds that
actually ran (instrumentation; the source observes this only through how far
the page was scrolled). -/
def scrollAux (visible : Nat → List Cursor) (now : Int) (newestFirst : Bool)
    (idleThr : Nat) : Nat → Nat → Nat → Nat → Nat → Option Nat × Nat
  | 0, i, _, _, _ => (none, i)
  | fuel + 1, i, lastCount, noGrowth, lastExamined =>
      let cards := visible i
      let count := cards.length
      let noGrowth' := if count ≤ lastCount then noGrowth + 1 else 0
      let ordered := if newestFirst then cards else cards.reverse
      let res := ordered.drop lastExamined
      match firstStopIdx now res with
      | some idx =>
          ((if newestFirst then some (lastExamined + idx) else none), i + 1)
      | none =>
          if idleThr ≤ noGrowth' then (none, i + 1)
          else scrollAux visible now newestFirst idleThr fuel (i + 1) count
                 noGrowth' (lastExamined + res.length)

/-- Model of `scrollUntilExpiredOrEnd(page)` with the configuration made explicit:
returns the recorded `stopAtCount` (and the number of rounds run). -/
def scrollUntilExpiredOrEnd (maxRounds idleThr : Nat) (newestFirst : Bool)
    (visible : Nat → List Cursor) (now : Int) : Option Nat × Nat :=
  scrollAux visible now newestFirst idleThr maxRounds 0 0 0 0

/-- The handler's trim of the extracted items (source lines 249-251):
`if (ORDER_NEWEST_FIRST && stopAtCount !== null) items = items.slice(0, stopAtCount)`. -/
def keptItems (newestFirst : Bool) (stopAtCount : Option Nat)
    (items : List RawRecord) : List RawRecord :=
  if newestFirst then
    match stopAtCount with
    | some k => items.take k
    | none => items
  else items

/-! ### The handler's filter / deliver / persist tail (source lines 256-303) -/

/-- A record together with its parsed `_deadlineUTC` field, as produced by the
spread `{...x, _deadlineUTC: parseDdMmYyToUTC(x.deadline)}`. -/
structure AnnItem extends RawRecord where
  _deadlineUTC : Option Int
  deriving DecidableEq, Repr

/-- The four-stage chain of source lines 271-275: drop records with falsy
(empty) link or an already-seen link, annotate with the parsed deadline, keep
only records whose deadline parsed (a `Date` object is always truthy), keep
only non-expired deadlines. -/
def filteredItems (seen : List String) (now : Int) (items : List RawRecord) :
    List AnnItem :=
  (((items.filter (fun x => !(x.link = "") && !(seen.contains x.link))).map
      (fun x => AnnItem.mk x (parseDdMmYyToUTC x.deadline))).filter
      (fun x => x._deadlineUTC.isSome)).filter
      (fun x => match x._deadlineUTC with
                | some d => !isExpiredByAlmaty d now
                | none => false)

/-- The specification's four-condition eligibility predicate: non-empty link,
link not in the seen set, deadline parses, deadline not expired. -/
def eligible (seen : List String) (now : Int) (r : RawRecord) : Bool :=
  (!(r.link = "") && !(seen.contains r.link)) &&
  (match parseDdMmYyToUTC r.deadline with
   | some d => !isExpiredByAlmaty d now
   | none => false)

/-- Model of `Set.prototype.add` on the seen set, modelled as a duplicate-free list. -/
def seenAdd (seen : List String) (l : String) : List String :=
  if seen.contains l then seen else seen ++ [l]

/-- Observable events of the delivery loop: a `postToTelegram` attempt for a
link, and an `await sleep(ms)` pause. -/
inductive Ev where
  | post (link : String)
  | pause (ms : Nat)
  deriving DecidableEq, Repr

/-- The delivery loop of source lines 282-293.  `send` is the transport
oracle: `send l = true` means `postToTelegram` returned normally for link
`l`, `false` means it threw.  Per item: attempt the post; on success increment
`posted`, add the link to the seen set and sleep 800 ms; on failure the catch
block only logs and the loop continues.  Returns
`(posted, final seen set, event trace)`. -/
def deliverLoop (send : String → Bool) :
    List AnnItem → Nat → List String → Nat × List String × List Ev
  | [], posted, seen => (posted, seen, [])
  | item :: rest, posted, seen =>
      if send item.link then
        let out := deliverLoop send rest (posted + 1) (seenAdd seen item.link)
        (out.1, out.2.1, Ev.post item.link :: Ev.pause 800 :: out.2.2)
      else
        let out := deliverLoop send rest posted seen
        (out.1, out.2.1, Ev.post item.link :: out.2.2)

/-- The links actually attempted, in order, read off an event trace. -/
def postsOf (tr : List Ev) : List String :=
  tr.filterMap (fun e => match e with | Ev.post l => some l | Ev.pause _ => none)

/-- The structured result of one run: the status code and `ok` flag of the
returned body, and the `posted` count when the body carries one (the
"no new tasks" body and the error body carry none). -/
structure RunResult where
  statusCode : Nat
  ok : Bool
  posted : Option Nat
  deriving DecidableEq, Repr

/-- What one run of the handler tail produced: the structured result, the
seen set successfully persisted by `writeSeenSet` (`none` when persistence was
not reached, not attempted, or threw), and the delivery event trace. -/
structure HandlerOutcome where
  result : RunResult
  persisted : Option (List String)
  trace : List Ev
  deriving DecidableEq, Repr

/-- The handler from after `extractAllItems` to its return (source lines
249-303): trim by the stop boundary, filter, return early when nothing is
eligible, otherwise deliver one by one and persist the final seen set.
`write` is the blob-store oracle (`false` means `writeSeenSet` threw); a
throw is caught by the handler's outer `catch`, which returns the 500
`{ok: false}` body. -/
def handlerTail (stopAtCount : Option Nat) (newestFirst : Bool)
    (items : List RawRecord) (seen0 : List String) (send : String → Bool)
    (write : List String → Bool) (now : Int) : HandlerOutcome :=
  if (filteredItems seen0 now (keptItems newestFirst stopAtCount
        items)).isEmpty then
    { result := ⟨200, true, none⟩, persisted := none, trace := [] }
  else
    if write (deliverLoop send
        (filteredItems seen0 now (keptItems newestFirst stopAtCount items))
        0 seen0).2.1 then
      { result := ⟨200, true, some (deliverLoop send
            (filteredItems seen0 now (keptItems newestFirst stopAtCount items))
            0 seen0).1⟩,
        persisted := some (deliverLoop send
            (filteredItems seen0 now (keptItems newestFirst stopAtCount items))
            0 seen0).2.1,
        trace := (deliverLoop send
            (filteredItems seen0 now (keptItems newestFirst stopAtCount items))
            0 seen0).2.2 }
    else
      { result := ⟨500, false, none⟩, persisted := none,
        trace := (deliverLoop send
            (filteredItems seen0 now (keptItems newestFirst stopAtCount items))
            0 seen0).2.2 }

/-! ### Specification-side encodings used to state the claims -/

/-- The digit character of `n`. -/
def digCh (n : Nat) : Char := Char.ofNat (48 + n)

/-- The eight-character rendering `DD.MM.YY` of day `d`, month `mo` and
two-digit year `yy` (each below 100). -/
def ddmmyyChars (d mo yy : Nat) : List Char :=
  [digCh (d / 10), digCh (d % 10), '.', digCh (mo / 10), digCh (mo % 10),
   '.', digCh (yy / 10), digCh (yy % 10)]

/-! ### Helper lemmas -/

section Lemmas

/-- Lemma: `List.contains` distributes over append. -/
theorem contains_append (l1 l2 : List String) (x : String) :
    (l1 ++ l2).contains x = (l1.contains x || l2.contains x) := by
  simp [List.mem_append, Bool.decide_or]

/-- Membership after a `Set.add`. -/
theorem seenAdd_mem (s : List String) (l x : String) :
    x ∈ seenAdd s l ↔ x ∈ s ∨ x = l := by
  unfold seenAdd
  split_ifs with h
  · simp only [List.elem_eq_mem, decide_eq_true_eq] at h
    exact ⟨Or.inl, fun hx => hx.elim id (fun e => e ▸ h)⟩
  · simp [List.mem_append]

/-- The delivery-loop trace: one post per record in order; a pause follows
exactly the successful posts. -/
theorem deliverLoop_trace (send : String → Bool) (batch : List AnnItem)
    (posted0 : Nat) (seen0 : List String) :
    (deliverLoop send batch posted0 seen0).2.2 =
      batch.flatMap (fun r =>
        Ev.post r.link :: (if send r.link then [Ev.pause 800] else [])) := by
  induction batch generalizing posted0 seen0 with
  | nil => simp [deliverLoop]
  | cons r rest ih =>
      by_cases h : send r.link = true
      · simp [deliverLoop, h, ih]
      · simp only [Bool.not_eq_true] at h
        simp [deliverLoop, h, ih]

/-- Every record of the batch is attempted, in order. -/
theorem deliverLoop_posts (send : String → Bool) (batch : List AnnItem)
    (posted0 : Nat) (seen0 : List String) :
    postsOf (deliverLoop send batch posted0 seen0).2.2 =
      batch.map (fun r => r.link) := by
  rw [deliverLoop_trace]
  induction batch with
  | nil => simp [postsOf]
  | cons r rest ih =>
      by_cases h : send r.link = true <;>
        simp [postsOf, List.filterMap_append, h] <;>
        simpa [postsOf] using ih

/-- The final seen set holds exactly the initial links plus the links whose
send succeeded. -/
theorem deliverLoop_seen_mem (send : String → Bool) (batch : List AnnItem)
    (posted0 : Nat) (seen0 : List String) (x : String) :
    x ∈ (deliverLoop send batch posted0 seen0).2.1 ↔
      x ∈ seen0 ∨ ∃ r ∈ batch, r.link = x ∧ send r.link = true := by
  induction batch generalizing posted0 seen0 with
  | nil => simp [deliverLoop]
  | cons r rest ih =>
      by_cases h : send r.link = true
      · simp only [deliverLoop, h, if_true]
        rw [ih]
        simp only [seenAdd_mem, List.mem_cons]
        constructor
        · rintro ((hx | hx) | ⟨r', hr', hlink, hsend⟩)
          · exact Or.inl hx
          · exact Or.inr ⟨r, Or.inl rfl, hx.symm, h⟩
          · exact Or.inr ⟨r', Or.inr hr', hlink, hsend⟩
        · rintro (hx | ⟨r', hr' | hr', hlink, hsend⟩)
          · exact Or.inl (Or.inl hx)
          · exact Or.inl (Or.inr (hr' ▸ hlink).symm)
          · exact Or.inr ⟨r', hr', hlink, hsend⟩
      · simp only [Bool.not_eq_true] at h
        simp only [deliverLoop, h, Bool.false_eq_true, if_false]
        rw [ih]
        simp only [List.mem_cons]
        constructor
        · rintro (hx | ⟨r', hr', hlink, hsend⟩)
          · exact Or.inl hx
          · exact Or.inr ⟨r', Or.inr hr', hlink, hsend⟩
        · rintro (hx | ⟨r', hr' | hr', hlink, hsend⟩)
          · exact Or.inl hx
          · rw [hr', h] at hsend; cases hsend
          · exact Or.inr ⟨r', hr', hlink, hsend⟩

/-- The posted counter counts exactly the successful sends. -/
theorem deliverLoop_posted (send : String → Bool) (batch : List AnnItem)
    (posted0 : Nat) (seen0 : List String) :
    (deliverLoop send batch posted0 seen0).1 =
      posted0 + (batch.filter (fun r => send r.link)).length := by
  induction batch generalizing posted0 seen0 with
  | nil => simp [deliverLoop]
  | cons r rest ih =>
      by_cases h : send r.link = true
      · simp [deliverLoop, h, ih]; omega
      · simp only [Bool.not_eq_true] at h
        simp [deliverLoop, h, ih]

end Lemmas

/-! ### Claim C3: expiry is inclusive of "today" in the fixed +5:00 zone -/

/-- Claim C3. -- For a deadline at midnight UTC of civil day `n` (which is also
civil day `n` in the +5:00 zone, as the second conjunct records) and any
evaluation instant `now`: the deadline is expired iff `n` is strictly before
the +5:00 civil day of `now`; a deadline on today's civil date is not
expired and a deadline on yesterday's civil date is expired, regardless of
the wall-clock hour of `now`.  The model contains no ambient machine
timezone: `isExpiredByAlmaty` uses only the fixed offset. -/
theorem claim_C3_expiry_inclusive_today (n now : Int) :
    (isExpiredByAlmaty (86400000 * n) now = true ↔ n < almatyDayNumber now)
    ∧ almatyDayNumber (86400000 * n) = n
    ∧ (almatyDayNumber now = n → isExpiredByAlmaty (86400000 * n) now = false)
    ∧ (almatyDayNumber now = n + 1 →
        isExpiredByAlmaty (86400000 * n) now = true) := by
  have hA : isExpiredByAlmaty (86400000 * n) now = true ↔
      n < almatyDayNumber now := by
    simp only [isExpiredByAlmaty, todayStartUTC_Almaty, almatyDayNumber,
      decide_eq_true_eq]
    generalize (now + 18000000).fdiv 86400000 = q
    omega
  have hB : almatyDayNumber (86400000 * n) = n := by
    unfold almatyDayNumber
    rw [Int.fdiv_eq_ediv _ (by norm_num)]
    omega
  refine ⟨hA, hB, ?_, ?_⟩
  · intro h
    rcases hbool : isExpiredByAlmaty (86400000 * n) now with _ | _
    · rfl
    · exact absurd (hA.mp hbool) (by omega)
  · intro h
    exact hA.mpr (by omega)

/-- Witness for C3 at a concrete instant: at `now = 86400000` (1970-01-02
00:00 UTC, i.e. 05:00 of civil day 1 in the +5 zone) a deadline on civil day
0 (yesterday) is expired. -/
theorem claim_C3_witness :
    almatyDayNumber 86400000 = 0 + 1
    ∧ isExpiredByAlmaty (86400000 * 0) 86400000 = true :=
  ⟨by decide, (claim_C3_expiry_inclusive_today 0 86400000).2.2.2 (by decide)⟩

/-! ### Claim C6: oldest-first ordering -/

/-- Under oldest-first ordering (`newestFirst = false`) the scroll loop never
records a stop boundary, on any exit path. -/
theorem scrollAux_oldest_stop_none (visible : Nat → List Cursor) (now : Int)
    (idleThr : Nat) :
    ∀ fuel i lastCount noGrowth lastExamined,
      (scrollAux visible now false idleThr fuel i lastCount noGrowth
          lastExamined).1 = none := by
  intro fuel
  induction fuel with
  | zero => intro i lc ng le; rfl
  | succ f ih =>
      intro i lc ng le
      simp only [scrollAux]
      cases hfs : firstStopIdx now
          ((if false then visible i else (visible i).reverse).drop le) with
      | some idx => simp
      | none =>
          simp only []
          split <;> split <;> first | rfl | exact ih _ _ _ _

/-- Claim C6 (amended). -- Under oldest-first display order the crawl controller
records no stop boundary: the returned `stopAtCount` is `null` on every exit
path, and consequently the handler trims nothing — all extracted items are
retained.  (The claim's further assertion that the crawl stops *only* via
idle exhaustion or the round cap is refuted by
`claim_C6_counterexample`: the round loop also breaks on the first
expired-or-invalid cursor under oldest-first order, merely without recording
a boundary.) -/
theorem claim_C6_amended_oldest_first_null (maxRounds idleThr : Nat)
    (visible : Nat → List Cursor) (now : Int) (items : List RawRecord) :
    (scrollUntilExpiredOrEnd maxRounds idleThr false visible now).1 = none
    ∧ keptItems false
        (scrollUntilExpiredOrEnd maxRounds idleThr false visible now).1
        items = items := by
  refine ⟨scrollAux_oldest_stop_none visible now idleThr maxRounds 0 0 0 0, rfl⟩

/-- Oldest-first page whose oldest (first examined) cursor has an invalid
deadline; the DOM lists the valid card first.  The page keeps growing, so
neither idle exhaustion nor the round cap is ever reached. -/
def visOldestCut : Nat → List Cursor :=
  fun _ => [⟨"01.01.70", "a"⟩, ⟨"", "b"⟩]

/-- The same page with both deadlines valid. -/
def visOldestAllValid : Nat → List Cursor :=
  fun _ => [⟨"01.01.70", "a"⟩, ⟨"01.01.70", "b"⟩]

/-- Claim C6 (counterexample). -- The claim asserts that under oldest-first order
the controller "stops scrolling only via idle exhaustion … or the maximum
round cap".  False: with 60 rounds allowed and an idle threshold of 3, the
loop over `visOldestCut` stops after a single round — it broke on the
expired-or-invalid cursor (while still returning a `null` boundary).  On the
same page with the bad deadline repaired (`visOldestAllValid`) the loop runs
4 rounds before idle exhaustion, showing it was the bad cursor that cut the
crawl short. -/
theorem claim_C6_counterexample :
    scrollUntilExpiredOrEnd 60 3 false visOldestCut 0 = (none, 1)
    ∧ scrollUntilExpiredOrEnd 60 3 false visOldestAllValid 0 = (none, 4)
    ∧ (1 : Nat) < 3 ∧ (1 : Nat) < 60 := by
  refine ⟨by decide, by decide, by decide, by decide⟩

/-! ### Claim C9: pacing between delivery attempts -/

/-- Claim C9 (amended). -- The event trace of the delivery loop is, per record in
order: the post attempt, followed by the fixed 800 ms pause exactly when that
attempt succeeded.  So the pacing delay separates successive attempts after
every success (and also follows the last successful attempt), but a failed
attempt is followed by the next attempt with no delay: the delay is NOT
applied independently of success/failure. -/
theorem claim_C9_amended_pacing_after_success (send : String → Bool)
    (batch : List AnnItem) (posted0 : Nat) (seen0 : List String) :
    (deliverLoop send batch posted0 seen0).2.2 =
      batch.flatMap (fun r =>
        Ev.post r.link :: (if send r.link then [Ev.pause 800] else [])) :=
  deliverLoop_trace send batch posted0 seen0

/-- Two eligible records whose sends both fail. -/
def annA : AnnItem := ⟨⟨"", "", "", "01.01.70", "", "", "a"⟩, some 0⟩

/-- Second record of the failing batch. -/
def annB : AnnItem := ⟨⟨"", "", "", "01.01.70", "", "", "b"⟩, some 0⟩

/-- Claim C9 (counterexample). -- The claim says a fixed pacing delay is applied
between every two successive delivery attempts, independent of
success/failure.  False: when the first send fails, the second attempt
follows it immediately — the trace contains two adjacent post events with no
pause between them. -/
theorem claim_C9_counterexample :
    (deliverLoop (fun _ => false) [annA, annB] 0 []).2.2 =
      [Ev.post "a", Ev.post "b"] := by
  decide

/-! ### Claims C8 and C10: message formatting and escaping -/

/-- Specification-side rendering of one label/value pair: a line exactly when
the raw value is non-empty. -/
def fmtField (p : String × String) : Option String :=
  if p.2 = "" then none
  else some ("<b>" ++ escapeHtml p.1 ++ ":</b> " ++ escapeHtml (jsTrimS p.2))

/-- Lemma: `add` appends at most one line. -/
theorem addLine_eq (lines : List String) (label val : String) :
    addLine lines label val =
      lines ++ (fmtField (label, val)).toList := by
  unfold addLine fmtField
  split_ifs <;> simp

/-- Lemma: `formatForTelegram` joins exactly the lines of the non-empty fields, in
field order. -/
theorem formatForTelegram_eq (item : RawRecord) :
    formatForTelegram item =
      String.intercalate "\n" ((fieldPairs item).filterMap fmtField) := by
  unfold formatForTelegram fieldPairs
  simp only [addLine_eq, List.filterMap_cons, List.filterMap_nil]
  cases fmtField ("Заголовок", item.title) <;>
    cases fmtField ("Описание", item.description) <;>
    cases fmtField ("Клиент", item.client) <;>
    cases fmtField ("Дедлайн", item.deadline) <;>
    cases fmtField ("Область задачи", item.taskArea) <;>
    cases fmtField ("Подано заявок", item.applications) <;>
    simp

/-- Claim C8 (amended). -- The formatted message holds one line per field whose
raw value is non-empty, in field order, each line rendering the escaped label
and the escaped *trimmed* value.  The truthiness test `val &&` precedes
trimming, so a field that is absent (empty) is omitted, but a
whitespace-only field is NOT omitted: it yields a line whose value part is
empty after trimming (see `claim_C8_counterexample`). -/
theorem claim_C8_amended_lines_for_nonempty_fields (item : RawRecord) :
    formatForTelegram item =
      String.intercalate "\n" ((fieldPairs item).filterMap fmtField) :=
  formatForTelegram_eq item

/-- A record whose title is whitespace-only and whose other fields are
absent. -/
def wsRecord : RawRecord := ⟨" ", "", "", "", "", "", ""⟩

/-- Claim C8 (counterexample). -- The claim says a whitespace-only field is
omitted entirely and never rendered as an empty value.  False: a record with
a whitespace-only title produces the line `<b>Заголовок:</b> ` — the label
with an empty value — instead of an empty message. -/
theorem claim_C8_counterexample :
    formatForTelegram wsRecord = "<b>Заголовок:</b> "
    ∧ jsTrimS wsRecord.title = ""
    ∧ formatForTelegram wsRecord ≠ "" := by
  refine ⟨by decide, by decide, by decide⟩

/-- Lemma: `replaceCharBy` distributes over append. -/
theorem replaceCharBy_append (t : Char) (rep l1 l2 : List Char) :
    replaceCharBy t rep (l1 ++ l2) =
      replaceCharBy t rep l1 ++ replaceCharBy t rep l2 := by
  induction l1 with
  | nil => rfl
  | cons c cs ih => simp [replaceCharBy, ih]

/-- The last two replace passes map one already-`&`-replaced block to its
final escaped form. -/
theorem escHeadBlock (c : Char) :
    replaceCharBy '>' "&gt;".data (replaceCharBy '<' "&lt;".data
      (if c = '&' then "&amp;".data else [c])) = escCharSpec c := by
  by_cases h1 : c = '&'
  · subst h1; decide
  · rw [if_neg h1]
    by_cases h2 : c = '<'
    · subst h2; decide
    · by_cases h3 : c = '>'
      · subst h3; decide
      · simp [replaceCharBy, h1, h2, h3, escCharSpec]

/-- The three sequential global replaces of `escapeHtml` amount to one
per-character escaping pass: replacing `&` first means the later passes never
rewrite the inserted entities. -/
theorem escape_eq_flatMap (l : List Char) :
    replaceCharBy '>' "&gt;".data
      (replaceCharBy '<' "&lt;".data
        (replaceCharBy '&' "&amp;".data l)) = l.flatMap escCharSpec := by
  induction l with
  | nil => rfl
  | cons c cs ih =>
      have hstep : replaceCharBy '&' "&amp;".data (c :: cs) =
          (if c = '&' then "&amp;".data else [c]) ++
            replaceCharBy '&' "&amp;".data cs := rfl
      rw [hstep, replaceCharBy_append, replaceCharBy_append, ih,
        escHeadBlock, List.flatMap_cons]

/-- Each escaped character block contains no raw angle bracket. -/
theorem escCharSpec_no_angle (c : Char) :
    (escCharSpec c).all (fun x => !(x = '<') && !(x = '>')) = true := by
  unfold escCharSpec
  by_cases h1 : c = '&'
  · simp [h1]
  · by_cases h2 : c = '<'
    · simp [h2]
    · by_cases h3 : c = '>'
      · simp [h1, h2, h3]
      · simp [h1, h2, h3]

/-- Claim C10. -- Escaping in the outbound message: `escapeHtml` is exactly the
per-character entity substitution (`&`→`&amp;`, `<`→`&lt;`, `>`→`&gt;`, with
`&` replaced first so entities are never double-escaped), its output contains
no raw `<` or `>`, and every label and (trimmed) value in the formatted
message passes through `escapeHtml` — the only raw markup in the message is
the `<b>…:</b>` wrapper emitted by the formatter itself. -/
theorem claim_C10_escaping (s : String) (item : RawRecord) :
    escapeHtml s = ⟨s.data.flatMap escCharSpec⟩
    ∧ (escapeHtml s).data.all (fun c => !(c = '<') && !(c = '>')) = true
    ∧ formatForTelegram item =
        String.intercalate "\n" ((fieldPairs item).filterMap fmtField) := by
  have h1 : escapeHtml s = ⟨s.data.flatMap escCharSpec⟩ := by
    unfold escapeHtml
    exact congrArg String.mk (escape_eq_flatMap s.data)
  refine ⟨h1, ?_, formatForTelegram_eq item⟩
  rw [h1]
  show (s.data.flatMap escCharSpec).all _ = true
  induction s.data with
  | nil => rfl
  | cons c cs ih =>
      rw [List.flatMap_cons, List.all_append, ih, escCharSpec_no_angle]
      rfl

/-! ### Claim C4: the eligibility filter -/

/-- The four-stage filter chain equals one pass of the specification's
four-condition eligibility predicate (annotating each survivor with its
parsed deadline). -/
theorem filteredItems_eq (seen : List String) (now : Int)
    (items : List RawRecord) :
    filteredItems seen now items =
      (items.filter (eligible seen now)).map
        (fun r => AnnItem.mk r (parseDdMmYyToUTC r.deadline)) := by
  induction items with
  | nil => rfl
  | cons r rest ih =>
      unfold filteredItems at ih ⊢
      by_cases h1 : (!(r.link = "") && !(seen.contains r.link)) = true
      · rw [@List.filter_cons_of_pos _
            (fun x : RawRecord => !(x.link = "") && !(seen.contains x.link))
            r rest h1,
          List.map_cons]
        cases hp : parseDdMmYyToUTC r.deadline with
        | none =>
            rw [@List.filter_cons_of_neg _
                (fun x : AnnItem => x._deadlineUTC.isSome) _ _ (by simp),
              @List.filter_cons_of_neg _ (eligible seen now) r rest
                (by intro hcon
                    simp only [eligible] at hcon
                    rw [hp] at hcon
                    simp at hcon),
              ih]
        | some dl =>
            rw [@List.filter_cons_of_pos _
                (fun x : AnnItem => x._deadlineUTC.isSome) _ _ (by simp)]
            by_cases hex : isExpiredByAlmaty dl now = true
            · rw [@List.filter_cons_of_neg _
                  (fun x : AnnItem => match x._deadlineUTC with
                    | some d => !isExpiredByAlmaty d now
                    | none => false) _ _ (by simp [hex]),
                @List.filter_cons_of_neg _ (eligible seen now) r rest
                  (by intro hcon
                      simp only [eligible] at hcon
                      rw [hp] at hcon
                      simp [hex] at hcon),
                ih]
            · simp only [Bool.not_eq_true] at hex
              rw [@List.filter_cons_of_pos _
                  (fun x : AnnItem => match x._deadlineUTC with
                    | some d => !isExpiredByAlmaty d now
                    | none => false) _ _ (by simp [hex]),
                @List.filter_cons_of_pos _ (eligible seen now) r rest
                  (by simp only [eligible]
                      rw [hp]
                      simp only [hex, Bool.not_false, Bool.and_true]
                      exact h1),
                List.map_cons, ih, hp]
      · have hp1 : (!(r.link = "") && !(seen.contains r.link)) = false := by
          cases hb : (!(r.link = "") && !(seen.contains r.link)) with
          | false => rfl
          | true => exact absurd hb h1
        rw [@List.filter_cons_of_neg _
            (fun x : RawRecord => !(x.link = "") && !(seen.contains x.link))
            r rest (fun hcon => h1 hcon),
          @List.filter_cons_of_neg _ (eligible seen now) r rest
            (by intro hcon
                simp only [eligible] at hcon
                rw [hp1] at hcon
                simp at hcon),
          ih]

/-- Claim C4 (amended). -- A record occurrence survives the filter iff its link is
non-empty, its link is not in the loaded seen set, its deadline parses, and
the deadline is not expired — and when the extracted links are pairwise
distinct, every eligible record's link occurs exactly once in the delivered
list.  (Without that distinctness assumption the claim fails: the pipeline
never deduplicates equal links inside one extraction — see
`claim_C4_counterexample`.) -/
theorem claim_C4_amended_eligibility (items : List RawRecord)
    (seen : List String) (now : Int) :
    (filteredItems seen now items).map (fun a => a.toRawRecord) =
      items.filter (eligible seen now)
    ∧ ((items.map (fun r => r.link)).Nodup →
        ∀ r ∈ items, eligible seen now r = true →
          ((filteredItems seen now items).map (fun a => a.link)).count r.link
            = 1) := by
  constructor
  · rw [filteredItems_eq, List.map_map]
    have hid : ((fun a : AnnItem => a.toRawRecord) ∘
        (fun r => AnnItem.mk r (parseDdMmYyToUTC r.deadline))) = id := rfl
    rw [hid, List.map_id]
  · intro hnodup r hr helig
    rw [filteredItems_eq, List.map_map]
    have hmapeq :
        ((items.filter (eligible seen now)).map
          ((fun a : AnnItem => a.link) ∘
            (fun r => AnnItem.mk r (parseDdMmYyToUTC r.deadline)))) =
        (items.filter (eligible seen now)).map (fun r => r.link) := rfl
    rw [hmapeq]
    have hsub : ((items.filter (eligible seen now)).map (fun r => r.link)).Sublist
        (items.map (fun r => r.link)) :=
      (List.filter_sublist items).map _
    have hnodup' := hnodup.sublist hsub
    have hmem : r.link ∈ (items.filter (eligible seen now)).map
        (fun r => r.link) :=
      List.mem_map_of_mem _ (List.mem_filter.mpr ⟨hr, helig⟩)
    exact List.count_eq_one_of_mem hnodup' hmem

/-- A record eligible at `now = 0`: non-empty fresh link, valid unexpired
deadline 1970-01-01. -/
def eligRec : RawRecord := ⟨"", "", "", "01.01.70", "", "", "x"⟩

/-- Claim C4 (counterexample). -- The claim says every record satisfying the four
conditions is included in delivery exactly once, two records with equal link
being the same logical task.  False: when the extraction yields the same
eligible link twice, both occurrences pass the filter and both are posted —
the logical task is delivered twice. -/
theorem claim_C4_counterexample :
    eligible [] 0 eligRec = true
    ∧ ((filteredItems [] 0 [eligRec, eligRec]).map (fun a => a.link)).count "x"
        = 2
    ∧ postsOf (deliverLoop (fun _ => true)
        (filteredItems [] 0 [eligRec, eligRec]) 0 []).2.2 = ["x", "x"] := by
  refine ⟨by decide, by decide, by decide⟩

/-- Witness instantiating C4 (amended): one eligible record, delivered
exactly once. -/
theorem claim_C4_witness :
    ((filteredItems [] 0 [eligRec]).map (fun a => a.link)).count "x" = 1 := by
  have h := (claim_C4_amended_eligibility [eligRec] [] 0).2 (by decide) eligRec
    (by simp) (by decide)
  simpa using h

/-! ### Claim C7: persistence failure fails the run -/

/-- Claim C7. -- When the eligible batch is non-empty, the run's structured result
is the 500 `{ok: false}` body exactly when `writeSeenSet` throws (and then
nothing is persisted); when persistence succeeds the run reports 200
`{ok: true}` with the posted count — regardless of how many individual sends
failed, since per-record failures are caught inside the loop. -/
theorem claim_C7_persistence_failure_fails_run (stopAt : Option Nat)
    (nf : Bool) (items : List RawRecord) (seen0 : List String)
    (send : String → Bool) (write : List String → Bool) (now : Int)
    (hne : filteredItems seen0 now (keptItems nf stopAt items) ≠ []) :
    (write (deliverLoop send
        (filteredItems seen0 now (keptItems nf stopAt items)) 0 seen0).2.1
          = false →
      (handlerTail stopAt nf items seen0 send write now).result
          = ⟨500, false, none⟩
      ∧ (handlerTail stopAt nf items seen0 send write now).persisted = none)
    ∧ (write (deliverLoop send
        (filteredItems seen0 now (keptItems nf stopAt items)) 0 seen0).2.1
          = true →
      (handlerTail stopAt nf items seen0 send write now).result
          = ⟨200, true, some (deliverLoop send
              (filteredItems seen0 now (keptItems nf stopAt items))
              0 seen0).1⟩
      ∧ (handlerTail stopAt nf items seen0 send write now).persisted
          = some (deliverLoop send
              (filteredItems seen0 now (keptItems nf stopAt items))
              0 seen0).2.1) := by
  have hempty : (filteredItems seen0 now (keptItems nf stopAt items)).isEmpty
      = false := by
    cases hfe : filteredItems seen0 now (keptItems nf stopAt items) with
    | nil => exact absurd hfe hne
    | cons a l => rfl
  constructor
  · intro hw
    unfold handlerTail
    rw [hempty, hw]
    exact ⟨rfl, rfl⟩
  · intro hw
    unfold handlerTail
    rw [hempty, hw]
    exact ⟨rfl, rfl⟩

/-- Witness for C7: one eligible record, send succeeds, persistence throws —
the run reports the 500 failure body and persists nothing. -/
theorem claim_C7_witness :
    (handlerTail none true [eligRec] [] (fun _ => true) (fun _ => false)
        0).result = ⟨500, false, none⟩
    ∧ (handlerTail none true [eligRec] [] (fun _ => true) (fun _ => false)
        0).persisted = none := by
  have h := (claim_C7_persistence_failure_fails_run none true [eligRec] []
    (fun _ => true) (fun _ => false) 0 (by decide)).1 rfl
  exact h

/-! ### Claim C1: newest-first stop boundary -/

/-- The inner scan finds exactly the index of the first expired-or-invalid
cursor. -/
theorem firstStopIdx_append (now : Int) (L1 L2 : List Cursor) (c : Cursor)
    (hgood : ∀ x ∈ L1, expiredOrInvalid now x = false)
    (hbad : expiredOrInvalid now c = true) :
    firstStopIdx now (L1 ++ c :: L2) = some L1.length := by
  induction L1 with
  | nil => simp [firstStopIdx, hbad]
  | cons a t ih =>
      have ha : expiredOrInvalid now a = false :=
        hgood a (List.mem_cons_self a t)
      have ht : ∀ x ∈ t, expiredOrInvalid now x = false :=
        fun x hx => hgood x (List.mem_cons_of_mem a hx)
      simp [firstStopIdx, ha, ih ht]

/-- Claim C1. -- Newest-first crawl over a fully rendered cursor sequence whose
first expired-or-invalid entry sits at absolute index `k = L1.length`: the
controller's stop boundary is exactly `k`; the handler then retains exactly
the items at indices `[0, k)`; and when `k = 0` zero items are retained and
the run returns the 200 `{ok: true}` "no new tasks" body — not an error. -/
theorem claim_C1_newest_first_stop_boundary (L1 L2 : List Cursor) (c : Cursor)
    (now : Int) (maxRounds idleThr : Nat) (items : List RawRecord)
    (seen0 : List String) (send : String → Bool) (write : List String → Bool)
    (hmax : 1 ≤ maxRounds)
    (hgood : ∀ x ∈ L1, expiredOrInvalid now x = false)
    (hbad : expiredOrInvalid now c = true) :
    (scrollUntilExpiredOrEnd maxRounds idleThr true (fun _ => L1 ++ c :: L2)
        now).1 = some L1.length
    ∧ keptItems true (some L1.length) items = items.take L1.length
    ∧ (L1.length = 0 →
        (handlerTail (some 0) true items seen0 send write now).result
          = ⟨200, true, none⟩) := by
  refine ⟨?_, rfl, ?_⟩
  · obtain ⟨f, rfl⟩ : ∃ f, maxRounds = f + 1 := ⟨maxRounds - 1, by omega⟩
    unfold scrollUntilExpiredOrEnd
    simp only [scrollAux, if_true, List.drop_zero,
      firstStopIdx_append now L1 L2 c hgood hbad]
    simp
  · intro _
    have hkept : keptItems true (some 0) items = [] := by
      simp [keptItems]
    unfold handlerTail
    rw [hkept]
    rfl

/-- Witness for C1: a single-cursor page whose very first deadline text is
empty (invalid) — boundary 0, nothing retained, 200 `{ok: true}` result. -/
theorem claim_C1_witness :
    (scrollUntilExpiredOrEnd 60 3 true (fun _ => [] ++ (⟨"", ""⟩ : Cursor) :: [])
        0).1 = some ([] : List Cursor).length
    ∧ keptItems true (some ([] : List Cursor).length) ([] : List RawRecord)
        = ([] : List RawRecord).take ([] : List Cursor).length
    ∧ (handlerTail (some 0) true [] [] (fun _ => true) (fun _ => true)
        0).result = ⟨200, true, none⟩ := by
  have h := claim_C1_newest_first_stop_boundary [] [] ⟨"", ""⟩ 0 60 3 [] []
    (fun _ => true) (fun _ => true) (by decide) (by simp) (by decide)
  exact ⟨h.1, h.2.1, h.2.2 rfl⟩

/-! ### Claim C5: per-record failure isolation -/

/-- First eligible record of the C5 witness batch. -/
def eligRecA : RawRecord := ⟨"", "", "", "01.01.70", "", "", "a"⟩

/-- Second eligible record of the C5 witness batch. -/
def eligRecB : RawRecord := ⟨"", "", "", "01.01.70", "", "", "b"⟩

/-- Claim C5. -- For any batch in which the send of link `l` fails and `l` was not
already seen: every record of the batch is still attempted, in order; the
final (persisted) seen set contains exactly the initial links plus the links
of successful sends; in particular `l` is absent from it, while every link
whose send succeeded is present; and when the eligible batch is non-empty and
persistence succeeds, exactly that set is persisted.  One record's failure
neither aborts the batch nor loses other successes. -/
theorem claim_C5_failure_isolation (stopAt : Option Nat) (nf : Bool)
    (items : List RawRecord) (seen0 : List String) (send : String → Bool)
    (write : List String → Bool) (now : Int) (l : String)
    (hfail : send l = false) (hfresh : l ∉ seen0)
    (hne : filteredItems seen0 now (keptItems nf stopAt items) ≠ [])
    (hw : write (deliverLoop send
        (filteredItems seen0 now (keptItems nf stopAt items)) 0 seen0).2.1
          = true) :
    postsOf (deliverLoop send
        (filteredItems seen0 now (keptItems nf stopAt items)) 0 seen0).2.2 =
      (filteredItems seen0 now (keptItems nf stopAt items)).map
        (fun r => r.link)
    ∧ l ∉ (deliverLoop send
        (filteredItems seen0 now (keptItems nf stopAt items)) 0 seen0).2.1
    ∧ (∀ r ∈ filteredItems seen0 now (keptItems nf stopAt items),
        send r.link = true →
          r.link ∈ (deliverLoop send
            (filteredItems seen0 now (keptItems nf stopAt items))
            0 seen0).2.1)
    ∧ (handlerTail stopAt nf items seen0 send write now).persisted
        = some (deliverLoop send
            (filteredItems seen0 now (keptItems nf stopAt items))
            0 seen0).2.1 := by
  refine ⟨deliverLoop_posts send _ 0 seen0, ?_, ?_, ?_⟩
  · intro hmem
    rcases (deliverLoop_seen_mem send _ 0 seen0 l).mp hmem with h0 | ⟨r, _, hlink, hsend⟩
    · exact hfresh h0
    · rw [hlink, hfail] at hsend
      cases hsend
  · intro r hr hsend
    exact (deliverLoop_seen_mem send _ 0 seen0 r.link).mpr
      (Or.inr ⟨r, hr, rfl, hsend⟩)
  · have hempty : (filteredItems seen0 now (keptItems nf stopAt
        items)).isEmpty = false := by
      cases hfe : filteredItems seen0 now (keptItems nf stopAt items) with
      | nil => exact absurd hfe hne
      | cons a t => rfl
    unfold handlerTail
    rw [hempty, hw]
    rfl

/-- Witness for C5: two eligible records `a`, `b`; the send of `b` fails.
Both are attempted, `a` is persisted, `b` is not. -/
theorem claim_C5_witness :
    postsOf (deliverLoop (fun s => s == "a")
        (filteredItems [] 0 (keptItems true none [eligRecA, eligRecB]))
        0 []).2.2 =
      (filteredItems [] 0 (keptItems true none [eligRecA, eligRecB])).map
        (fun r => r.link)
    ∧ "b" ∉ (deliverLoop (fun s => s == "a")
        (filteredItems [] 0 (keptItems true none [eligRecA, eligRecB]))
        0 []).2.1
    ∧ (∀ r ∈ filteredItems [] 0 (keptItems true none [eligRecA, eligRecB]),
        (fun s => s == "a") r.link = true →
          r.link ∈ (deliverLoop (fun s => s == "a")
            (filteredItems [] 0 (keptItems true none [eligRecA, eligRecB]))
            0 []).2.1)
    ∧ (handlerTail none true [eligRecA, eligRecB] [] (fun s => s == "a")
        (fun _ => true) 0).persisted
        = some (deliverLoop (fun s => s == "a")
            (filteredItems [] 0 (keptItems true none [eligRecA, eligRecB]))
            0 []).2.1 :=
  claim_C5_failure_isolation none true [eligRecA, eligRecB] []
    (fun s => s == "a") (fun _ => true) 0 "b" (by decide) (by simp)
    (by decide) (by decide)

/-! ### Claim C2: the deadline parser -/

/-- Digit encodings round-trip. -/
theorem digCh_props : ∀ n < 10, isDigitCh (digCh n) = true
    ∧ digitVal (digCh n) = n := by decide

/-- A character accepted by `\d` has code point between 48 and 57. -/
theorem isDigitCh_bounds (c : Char) (h : isDigitCh c = true) :
    48 ≤ c.toNat ∧ c.toNat ≤ 57 := by
  unfold isDigitCh at h
  simpa [Bool.and_eq_true, decide_eq_true_eq] using h

/-- Digit values are below 10. -/
theorem digitVal_lt (c : Char) (h : isDigitCh c = true) : digitVal c < 10 := by
  have := isDigitCh_bounds c h
  unfold digitVal
  omega

/-- Decoding then re-encoding a digit character is the identity. -/
theorem digCh_digitVal (c : Char) (h : isDigitCh c = true) :
    digCh (digitVal c) = c := by
  have hb := isDigitCh_bounds c h
  unfold digCh digitVal
  have h48 : 48 + (c.toNat - 48) = c.toNat := by omega
  rw [h48, Char.ofNat_toNat]

/-- Claim C2 (amended). -- `parseDdMmYyToUTC` is total (it is a Lean function, so
it never throws), and after stripping the optional case-insensitive `до`
marker and trimming: if the remainder is exactly `DD.MM.YY` with day `d` in
1–31 and month `mo` in 1–12, the result is the valid timestamp
`Date.UTC(year, mo-1, d)` with the year windowed by `yy < 70 ↦ 2000+yy`,
`yy ≥ 70 ↦ 1900+yy` — for a real calendar date this is exactly that date at
midnight UTC, but for a day count exceeding the month's length the timestamp
silently overflows into the following month instead of being rejected (see
`claim_C2_counterexample`); every input whose cleaned remainder is not of
the `DD.MM.YY` shape, including wrong field widths, non-digit characters,
out-of-range day or month, and empty text, yields the distinct `none`
outcome. -/
theorem claim_C2_amended_parse_deadline (s : String) :
    (∀ d mo yy : Nat, d < 100 → mo < 100 → yy < 100 →
       jsTrim (stripDoMarker s.data) = ddmmyyChars d mo yy →
       parseDdMmYyToUTC s =
         if 1 ≤ d ∧ d ≤ 31 ∧ 1 ≤ mo ∧ mo ≤ 12 then
           some (86400000 *
             (epochDays (yy + if yy < 70 then 2000 else 1900) mo d : Int))
         else none)
    ∧ ((∀ d mo yy : Nat, d < 100 → mo < 100 → yy < 100 →
          jsTrim (stripDoMarker s.data) ≠ ddmmyyChars d mo yy) →
        parseDdMmYyToUTC s = none) := by
  constructor
  · intro d mo yy hd hmo hyy hclean
    have hs : ¬(s = "") := by
      intro h
      subst h
      rw [show jsTrim (stripDoMarker ("" : String).data) = [] from rfl]
        at hclean
      simp [ddmmyyChars] at hclean
    unfold parseDdMmYyToUTC
    rw [if_neg hs, hclean]
    have hd1 : d / 10 < 10 := by omega
    have hd2 : d % 10 < 10 := by omega
    have hm1 : mo / 10 < 10 := by omega
    have hm2 : mo % 10 < 10 := by omega
    have hy1 : yy / 10 < 10 := by omega
    have hy2 : yy % 10 < 10 := by omega
    simp only [ddmmyyChars, parseCleanChars]
    rw [if_pos (by
      simp [(digCh_props _ hd1).1, (digCh_props _ hd2).1,
        (digCh_props _ hm1).1, (digCh_props _ hm2).1,
        (digCh_props _ hy1).1, (digCh_props _ hy2).1])]
    have hddEq : 10 * digitVal (digCh (d / 10)) + digitVal (digCh (d % 10))
        = d := by
      rw [(digCh_props _ hd1).2, (digCh_props _ hd2).2]; omega
    have hmoEq : 10 * digitVal (digCh (mo / 10)) + digitVal (digCh (mo % 10))
        = mo := by
      rw [(digCh_props _ hm1).2, (digCh_props _ hm2).2]; omega
    have hyyEq : 10 * digitVal (digCh (yy / 10)) + digitVal (digCh (yy % 10))
        = yy := by
      rw [(digCh_props _ hy1).2, (digCh_props _ hy2).2]; omega
    rw [hddEq, hmoEq, hyyEq]
    by_cases hr : 1 ≤ d ∧ d ≤ 31 ∧ 1 ≤ mo ∧ mo ≤ 12
    · rw [if_pos hr]
      rw [if_neg (by
        simp only [Bool.or_eq_true, decide_eq_true_eq, not_or]
        omega)]
    · rw [if_neg hr]
      rw [if_pos (by
        simp only [Bool.or_eq_true, decide_eq_true_eq]
        omega)]
  · intro hno
    by_cases hs : s = ""
    · simp [parseDdMmYyToUTC, hs]
    · unfold parseDdMmYyToUTC
      rw [if_neg hs]
      generalize hg : jsTrim (stripDoMarker s.data) = cs
      rw [hg] at hno
      rcases cs with _ | ⟨a, _ | ⟨b, _ | ⟨p1, _ | ⟨c2, _ | ⟨d2, _ |
        ⟨p2, _ | ⟨e2, _ | ⟨f2, rest⟩⟩⟩⟩⟩⟩⟩⟩
      · rfl
      · rfl
      · rfl
      · rfl
      · rfl
      · rfl
      · rfl
      · rfl
      · rcases rest with _ | ⟨g, rest2⟩
        · by_cases hcond : (p1 = '.' && p2 = '.' && isDigitCh a && isDigitCh b
              && isDigitCh c2 && isDigitCh d2 && isDigitCh e2 && isDigitCh f2)
                = true
          · simp only [Bool.and_eq_true, decide_eq_true_eq] at hcond
            obtain ⟨⟨⟨⟨⟨⟨⟨hP1, hP2⟩, hA⟩, hB⟩, hC⟩, hD⟩, hE⟩, hF⟩ := hcond
            subst hP1
            subst hP2
            have hA9 := digitVal_lt a hA
            have hB9 := digitVal_lt b hB
            have hC9 := digitVal_lt c2 hC
            have hD9 := digitVal_lt d2 hD
            have hE9 := digitVal_lt e2 hE
            have hF9 := digitVal_lt f2 hF
            have hkey : ([a, b, '.', c2, d2, '.', e2, f2] : List Char) =
                ddmmyyChars (10 * digitVal a + digitVal b)
                  (10 * digitVal c2 + digitVal d2)
                  (10 * digitVal e2 + digitVal f2) := by
              unfold ddmmyyChars
              have q1 : (10 * digitVal a + digitVal b) / 10 = digitVal a := by
                omega
              have q2 : (10 * digitVal a + digitVal b) % 10 = digitVal b := by
                omega
              have q3 : (10 * digitVal c2 + digitVal d2) / 10 = digitVal c2 := by
                omega
              have q4 : (10 * digitVal c2 + digitVal d2) % 10 = digitVal d2 := by
                omega
              have q5 : (10 * digitVal e2 + digitVal f2) / 10 = digitVal e2 := by
                omega
              have q6 : (10 * digitVal e2 + digitVal f2) % 10 = digitVal f2 := by
                omega
              rw [q1, q2, q3, q4, q5, q6, digCh_digitVal a hA,
                digCh_digitVal b hB, digCh_digitVal c2 hC,
                digCh_digitVal d2 hD, digCh_digitVal e2 hE,
                digCh_digitVal f2 hF]
            exact absurd hkey
              (hno _ _ _ (by omega) (by omega) (by omega))
          · simp only [parseCleanChars]
            rw [if_neg hcond]
        · rfl

/-- Claim C2 (counterexample). -- The claim says a `DD.MM.YY` remainder with day
in 1–31 and month in 1–12 parses to exactly that calendar date, and no input
ever yields a silently substituted different date.  False: `"31.02.25"`
passes the range check although 2025-02-31 does not exist, and
`Date.UTC(2025, 1, 31)` normalizes it to 2025-03-03 — the parser returns the
very same valid timestamp as for `"03.03.25"` instead of rejecting it. -/
theorem claim_C2_counterexample :
    parseDdMmYyToUTC "31.02.25" = parseDdMmYyToUTC "03.03.25"
    ∧ parseDdMmYyToUTC "31.02.25"
        = some (86400000 * (epochDays 2025 3 3 : Int))
    ∧ parseDdMmYyToUTC "31.02.25" ≠ none := by
  refine ⟨by decide, by decide, by decide⟩

/-- Witness for C2 (amended), positive branch: `"до 21.08.25"` — marker
stripped, valid date — parses to 2025-08-21 at midnight UTC. -/
theorem claim_C2_witness :
    parseDdMmYyToUTC "до 21.08.25" =
      if 1 ≤ 21 ∧ 21 ≤ 31 ∧ 1 ≤ 8 ∧ 8 ≤ 12 then
        some (86400000 *
          (epochDays (25 + if 25 < 70 then 2000 else 1900) 8 21 : Int))
      else none := by
  have h := (claim_C2_amended_parse_deadline "до 21.08.25").1 21 8 25
    (by decide) (by decide) (by decide) (by decide)
  exact h
